import Mathlib

/-!
Verification of the reaction-abuse correlation engine of the
DiscordCommunityHelperBot repository.

The development shallowly embeds the relevant Python source:

- src/bot/models/emoji_payload.py           (dataclass EmojiPayload)
- src/bot/db/repos/emoji_payload_repo.py    (Pending Reaction Store)
- src/bot/db/repos/emoji_abuser_repo.py     (Abuse Event Store)
- src/bot/cogs/reaction_abuser/reaction_abuser_listener.py
                                            (Pair Matcher, Window Aggregator,
                                             Retention Sweeper)

Conventions of the embedding:

- SQLite tables become lists of rows plus an AUTOINCREMENT counter
  (EmojiTable).  Row order in the list is insertion order; the surrogate
  id is the AUTOINCREMENT primary key.
- Time instants carried by datetime values are rationals (epoch seconds,
  sub-second fraction included).  The Python conversion int(dt.timestamp())
  used on every INSERT truncates toward zero, which is pyInt below
  (Int.tdiv of numerator by denominator); reading a row back through
  datetime.fromtimestamp(int(...)) yields the whole-second instant, which
  is the Int-to-Rat coercion of the stored integer.
- Async database calls are sequential pure state passing, matching the
  order of awaits in the source.
- The discord gateway delivers RawReactionEvent values; the external log
  channel is represented by a Bool saying whether it resolved, and alert
  emission becomes an explicit AggAction trace so that the order of
  alerting and purging is observable.
-/

/-- Python int() applied to a rational number of seconds: truncation toward
zero, exactly as int(datetime.timestamp()) behaves on a float. -/
def pyInt (q : ℚ) : ℤ :=
  q.num.tdiv q.den

/-- The in-memory dataclass EmojiPayload (src/bot/models/emoji_payload.py);
timestamp is the datetime carried by the event, in epoch seconds. -/
structure EmojiPayload where
  message_id : ℕ
  channel_id : ℕ
  guild_id : ℕ
  user_id : ℕ
  emoji : Option String
  timestamp : ℚ
deriving DecidableEq

/-- One row of the emoji_payload and emoji_abuser SQLite tables: the
columns of the CREATE TABLE statements in both repos, with the
AUTOINCREMENT primary key id and the INTEGER timestamp column. -/
structure EmojiRow where
  id : ℕ
  message_id : ℕ
  guild_id : ℕ
  channel_id : ℕ
  user_id : ℕ
  emoji : Option String
  timestamp : ℤ
deriving DecidableEq

/-- A SQLite table: rows in insertion order plus the next AUTOINCREMENT id. -/
structure EmojiTable where
  rows : List EmojiRow
  nextId : ℕ
deriving DecidableEq

/-- A freshly created table (AUTOINCREMENT starts at 1). -/
def emptyTable : EmojiTable := ⟨[], 1⟩

/-- The WHERE clause shared by get and delete in both repos:
(emoji IS NULL AND ? IS NULL) OR (emoji = ?).  A NULL parameter compared
with = never matches, so the clause holds exactly when both are NULL or
both are equal strings. -/
def emojiWhere (param rowEmoji : Option String) : Bool :=
  (rowEmoji.isNone && param.isNone) ||
    (match rowEmoji, param with
     | some a, some b => a == b
     | _, _ => false)

/-- The identity part of the WHERE clause of EmojiPayloadRepo.get and
EmojiPayloadRepo.delete: message_id, guild_id, channel_id, user_id and the
emoji clause. -/
def rowMatches (p : EmojiPayload) (r : EmojiRow) : Bool :=
  (r.message_id == p.message_id) && (r.guild_id == p.guild_id) &&
    (r.channel_id == p.channel_id) && (r.user_id == p.user_id) &&
    emojiWhere p.emoji r.emoji

/-- ORDER BY timestamp DESC, id DESC LIMIT 1 realised as a fold: of two
rows, keep the one that is lexicographically greater by (timestamp, id). -/
def bestRow (a b : EmojiRow) : EmojiRow :=
  if a.timestamp < b.timestamp ∨ (a.timestamp = b.timestamp ∧ a.id < b.id) then b else a

/-- INSERT INTO ... (message_id, guild_id, channel_id, user_id, emoji,
timestamp) VALUES (...), with timestamp truncated by int(...): shared by
EmojiPayloadRepo.add and EmojiAbuserRepo.add. -/
def insertPayload (p : EmojiPayload) (t : EmojiTable) : EmojiTable :=
  ⟨t.rows ++ [⟨t.nextId, p.message_id, p.guild_id, p.channel_id, p.user_id,
              p.emoji, pyInt p.timestamp⟩],
   t.nextId + 1⟩

/-- EmojiPayloadRepo.add (src/bot/db/repos/emoji_payload_repo.py lines 57 to 72). -/
def EmojiPayloadRepo.add (p : EmojiPayload) (t : EmojiTable) : EmojiTable :=
  insertPayload p t

/-- EmojiPayloadRepo.get (lines 82 to 118): SELECT matching the Reaction
Identity, ORDER BY timestamp DESC, id DESC LIMIT 1. -/
def EmojiPayloadRepo.get (p : EmojiPayload) (t : EmojiTable) : Option EmojiRow :=
  match t.rows.filter (rowMatches p) with
  | [] => none
  | r :: rs => some (rs.foldl bestRow r)

/-- EmojiPayloadRepo.delete (lines 120 to 141): DELETE of every row
matching the Reaction Identity, returning the rowcount. -/
def EmojiPayloadRepo.delete (p : EmojiPayload) (t : EmojiTable) : EmojiTable × ℕ :=
  (⟨t.rows.filter (fun r => ! rowMatches p r), t.nextId⟩,
   (t.rows.filter (rowMatches p)).length)

/-- EmojiPayloadRepo.get_and_delete (lines 74 to 80): get, and if a row was
found, delete (which removes every matching row, not only the one
returned by get). -/
def EmojiPayloadRepo.get_and_delete (p : EmojiPayload) (t : EmojiTable) :
    Option EmojiRow × EmojiTable :=
  match EmojiPayloadRepo.get p t with
  | none => (none, t)
  | some r => (some r, (EmojiPayloadRepo.delete p t).1)

/-- EmojiAbuserRepo.add (src/bot/db/repos/emoji_abuser_repo.py lines 57 to 72). -/
def EmojiAbuserRepo.add (p : EmojiPayload) (t : EmojiTable) : EmojiTable :=
  insertPayload p t

/-- EmojiAbuserRepo.delete_user_records (lines 228 to 238): DELETE FROM
emoji_abuser WHERE user_id = ?, returning the rowcount. -/
def EmojiAbuserRepo.delete_user_records (u : ℕ) (t : EmojiTable) : EmojiTable × ℕ :=
  (⟨t.rows.filter (fun r => ! (r.user_id == u)), t.nextId⟩,
   (t.rows.filter (fun r => r.user_id == u)).length)

/-- EmojiAbuserRepo.prune (lines 240 to 254): cutoff is
int((now - timedelta(seconds=older_than)).timestamp()); DELETE WHERE
timestamp < cutoff, returning the rowcount. -/
def EmojiAbuserRepo.prune (olderThanSeconds : ℤ) (now : ℚ) (t : EmojiTable) :
    EmojiTable × ℕ :=
  let cutoff : ℤ := pyInt (now - (olderThanSeconds : ℚ))
  (⟨t.rows.filter (fun r => ! decide (r.timestamp < cutoff)), t.nextId⟩,
   (t.rows.filter (fun r => decide (r.timestamp < cutoff))).length)

/-- A raw gateway notification (discord.RawReactionActionEvent): ids, an
optional guild id (None outside a server), and the emoji as an optional
name plus optional custom-emoji id. -/
structure RawReactionEvent where
  message_id : ℕ
  channel_id : ℕ
  user_id : ℕ
  guild_id : Option ℕ
  emoji_name : Option String
  emoji_id : Option ℕ
deriving DecidableEq

/-- Left-pad a hexadecimal rendering (lowercase, as Nat.toDigits produces)
to the given width with zeroes. -/
def hexPad (n width : ℕ) : String :=
  let s := (Nat.toDigits 16 n).asString
  String.mk (List.replicate (width - s.length) '0') ++ s

/-- The unicode_escape codec of CPython applied to one character:
backslash doubled, tab, newline and carriage return named, printable
ASCII kept, anything else rendered as a backslash-x, backslash-u or
backslash-U hexadecimal escape depending on the code point. -/
def escapeChar (c : Char) : String :=
  if c = '\\' then "\\\\"
  else if c = '\t' then "\\t"
  else if c = '\n' then "\\n"
  else if c = '\r' then "\\r"
  else if 0x20 ≤ c.toNat ∧ c.toNat < 0x7f then String.mk [c]
  else if c.toNat < 0x100 then "\\x" ++ hexPad c.toNat 2
  else if c.toNat < 0x10000 then "\\u" ++ hexPad c.toNat 4
  else "\\U" ++ hexPad c.toNat 8

/-- name.encode(unicode_escape).decode(ascii): a total function on
strings, escaping character by character. -/
def unicodeEscape (s : String) : String :=
  String.join (s.data.map escapeChar)

/-- ReactionAbuserListener._get_emoji_as_readable_utf8_str (lines 218 to
222): the escaped emoji name if the name is truthy, otherwise None. -/
def get_emoji_as_readable_utf8_str (emojiName : Option String) : Option String :=
  match emojiName with
  | some n => if n = "" then none else some (unicodeEscape n)
  | none => none

/-- ReactionAbuserListener._extract_payload_info (lines 188 to 201):
emoji is the dash-join of the non-None entries among the escaped name and
the custom emoji id, guild_id defaults to 0, timestamp is the current
instant. -/
def extract_payload_info (e : RawReactionEvent) (now : ℚ) : EmojiPayload :=
  let parts : List (Option String) :=
    [get_emoji_as_readable_utf8_str e.emoji_name, e.emoji_id.map toString]
  { message_id := e.message_id
    channel_id := e.channel_id
    user_id := e.user_id
    guild_id := e.guild_id.getD 0
    emoji := some (String.intercalate "-" (parts.filterMap id))
    timestamp := now }

/-- ReactionAbuserListener._is_actionable_reaction (lines 224 to 228):
drop only reactions by the bot account itself (user_id equal to the bot
user id when a bot user exists). -/
def is_actionable_reaction (botUserId : Option ℕ) (userId : ℕ) : Bool :=
  match botUserId with
  | some b => ! (userId == b)
  | none => true

/-- ReactionAbuserListener.on_raw_reaction_add (lines 28 to 35): if
actionable, extract the payload and insert it into the Pending Reaction
Store; otherwise do nothing. -/
def on_raw_reaction_add (botUserId : Option ℕ) (e : RawReactionEvent) (now : ℚ)
    (pending : EmojiTable) : EmojiTable :=
  if is_actionable_reaction botUserId e.user_id then
    EmojiPayloadRepo.add (extract_payload_info e now) pending
  else pending

/-- ReactionAbuserListener.on_raw_reaction_remove (lines 37 to 62): look
up and delete the matching pending add; on a match compare the dwell time
against reacted_time_window_seconds and record an abuse event built from
the removal payload when the dwell is within the window.  Returns the new
pending table and the new abuse-event table. -/
def on_raw_reaction_remove (botUserId : Option ℕ) (e : RawReactionEvent) (now : ℚ)
    (reactedTimeWindowSeconds : ℚ) (pending abuse : EmojiTable) :
    EmojiTable × EmojiTable :=
  if is_actionable_reaction botUserId e.user_id then
    let delPayload := extract_payload_info e now
    match EmojiPayloadRepo.get_and_delete delPayload pending with
    | (none, pending2) => (pending2, abuse)
    | (some addRow, pending2) =>
        if now - (addRow.timestamp : ℚ) ≤ reactedTimeWindowSeconds then
          (pending2, EmojiAbuserRepo.add delPayload abuse)
        else (pending2, abuse)
  else (pending, abuse)

/-- First-seen deduplication by a key function: the Python pattern of a
seen-set plus an output list, walking the input in order and keeping an
element only when its key has not been seen yet. -/
def dedupKeysGo [DecidableEq β] (f : α → β) (seen : List β) : List α → List α
  | [] => []
  | x :: xs =>
      if f x ∈ seen then dedupKeysGo f seen xs
      else x :: dedupKeysGo f (f x :: seen) xs

/-- First-seen deduplication starting from an empty seen-set. -/
def dedupKeys [DecidableEq β] (f : α → β) (l : List α) : List α :=
  dedupKeysGo f [] l

/-- WHERE timestamp >= cutoff: the rows of the store inside the trailing
window (used by both queries of EmojiAbuserRepo.get_abusers_within). -/
def inWindow (cutoff : ℤ) (t : EmojiTable) : List EmojiRow :=
  t.rows.filter (fun r => decide (cutoff ≤ r.timestamp))

/-- COUNT(*) of the in-window rows of one user (the per-user group count
of the GROUP BY user_id query). -/
def windowCount (cutoff : ℤ) (t : EmojiTable) (u : ℕ) : ℕ :=
  ((inWindow cutoff t).filter (fun r => r.user_id == u)).length

/-- The offender ids of the first query of get_abusers_within (lines 84 to
96): GROUP BY user_id HAVING COUNT(*) > max_count over the in-window rows. -/
def offenderIds (cutoff : ℤ) (maxCount : ℕ) (t : EmojiTable) : List ℕ :=
  (dedupKeys id ((inWindow cutoff t).map (·.user_id))).filter
    (fun u => decide (maxCount < windowCount cutoff t u))

/-- ORDER BY user_id ASC, timestamp DESC, id DESC as a boolean relation. -/
def aggLE (a b : EmojiRow) : Bool :=
  decide (a.user_id < b.user_id) ||
    ((a.user_id == b.user_id) &&
      (decide (b.timestamp < a.timestamp) ||
        ((a.timestamp == b.timestamp) && decide (b.id ≤ a.id))))

/-- EmojiAbuserRepo.get_abusers_within (lines 74 to 127): every in-window
row whose user is an offender, ordered by user_id ASC, timestamp DESC,
id DESC. -/
def EmojiAbuserRepo.get_abusers_within (cutoff : ℤ) (maxCount : ℕ)
    (t : EmojiTable) : List EmojiRow :=
  List.insertionSort (fun a b => aggLE a b = true)
    ((inWindow cutoff t).filter
      (fun r => decide (r.user_id ∈ offenderIds cutoff maxCount t)))

/-- The evidence-deduplication key of every_minute_task (line 83):
(message_id, user_id, channel_id, guild_id, emoji). -/
def dedupKey (r : EmojiRow) : ℕ × ℕ × ℕ × ℕ × Option String :=
  (r.message_id, r.user_id, r.channel_id, r.guild_id, r.emoji)

/-- match_abusers of every_minute_task (lines 79 to 86): first-seen
deduplication of the selected rows by dedupKey. -/
def matchAbusersOf (cutoff : ℤ) (maxCount : ℕ) (t : EmojiTable) : List EmojiRow :=
  dedupKeys dedupKey (EmojiAbuserRepo.get_abusers_within cutoff maxCount t)

/-- matched_payloads for one user (line 110): the deduplicated rows of
that user, attached to the alert as evidence. -/
def evidenceFor (cutoff : ℤ) (maxCount : ℕ) (t : EmojiTable) (u : ℕ) :
    List EmojiRow :=
  (matchAbusersOf cutoff maxCount t).filter (fun r => r.user_id == u)

/-- The Counter of every_minute_task (line 97): occurrences of a user id
among the selected rows. -/
def countsOf (cutoff : ℤ) (maxCount : ℕ) (t : EmojiTable) (u : ℕ) : ℕ :=
  ((EmojiAbuserRepo.get_abusers_within cutoff maxCount t).filter
    (fun r => r.user_id == u)).length

/-- abuse_warns_by_user_ids (lines 98 to 102): the user ids of the
selected rows in first-occurrence order, kept when their count strictly
exceeds warning_max_allowed_removal. -/
def warnUsersOf (cutoff : ℤ) (maxCount : ℕ) (t : EmojiTable) : List ℕ :=
  (dedupKeys id ((EmojiAbuserRepo.get_abusers_within cutoff maxCount t).map
      (·.user_id))).filter
    (fun u => decide (maxCount < countsOf cutoff maxCount t u))

/-- One observable step of the aggregator: sending an alert embed to the
log channel (user, count, evidence) or purging the abuse events of a user
(user, deleted rowcount). -/
inductive AggAction where
  | alert (user_id : ℕ) (count : ℕ) (evidence : List EmojiRow) : AggAction
  | purge (user_id : ℕ) (deleted : ℕ) : AggAction
deriving DecidableEq

/-- The per-user loop of every_minute_task (lines 104 to 138): for each
flagged user, in order, send one alert and then delete all of that user
records, threading the store state. -/
def aggLoop (ev : ℕ → List EmojiRow) (cnt : ℕ → ℕ) :
    List ℕ → EmojiTable → List AggAction × EmojiTable
  | [], t => ([], t)
  | u :: us, t =>
      let d := EmojiAbuserRepo.delete_user_records u t
      let rest := aggLoop ev cnt us d.1
      (AggAction.alert u (cnt u) (ev u) :: AggAction.purge u d.2 :: rest.1, rest.2)

/-- The aggregation cutoff of every_minute_task: within_seconds is
int(warning_time_window_seconds), and get_abusers_within computes
int((now - timedelta(seconds=within_seconds)).timestamp()). -/
def aggCutoff (warningTimeWindowSeconds : ℚ) (now : ℚ) : ℤ :=
  pyInt (now - ((pyInt warningTimeWindowSeconds : ℤ) : ℚ))

/-- ReactionAbuserListener.every_minute_task (lines 64 to 138): select the
in-window rows of offenders; return immediately when none were selected
or when the log channel cannot be resolved; otherwise alert and purge
each user whose count strictly exceeds warning_max_allowed_removal. -/
def every_minute_task (warningTimeWindowSeconds : ℚ) (maxCount : ℕ)
    (hasLogChannel : Bool) (now : ℚ) (t : EmojiTable) :
    List AggAction × EmojiTable :=
  let cutoff := aggCutoff warningTimeWindowSeconds now
  if (EmojiAbuserRepo.get_abusers_within cutoff maxCount t).isEmpty then ([], t)
  else if hasLogChannel then
    aggLoop (evidenceFor cutoff maxCount t) (countsOf cutoff maxCount t)
      (warnUsersOf cutoff maxCount t) t
  else ([], t)

/-- ReactionAbuserListener.every_sixty_minutes_task (lines 176 to 182):
prune abuse events older than int(warning_time_window_seconds * 2)
seconds, returning the pruned count. -/
def every_sixty_minutes_task (warningTimeWindowSeconds : ℚ) (now : ℚ)
    (t : EmojiTable) : EmojiTable × ℕ :=
  EmojiAbuserRepo.prune (pyInt (warningTimeWindowSeconds * 2)) now t

/-- The lexicographic order in which EmojiPayloadRepo.get prefers rows:
a is at least b when b has a smaller timestamp, or the same timestamp and
a smaller or equal id (ORDER BY timestamp DESC, id DESC). -/
def lexGE (a b : EmojiRow) : Prop :=
  b.timestamp < a.timestamp ∨ (b.timestamp = a.timestamp ∧ b.id ≤ a.id)

/-- Recognizer of an alert action for a given user. -/
def isAlertOf (u : ℕ) : AggAction → Bool
  | AggAction.alert v _ _ => v == u
  | AggAction.purge _ _ => false

/-- A concrete unicode reaction event, used as a fixture. -/
def eC1 : RawReactionEvent := ⟨1, 2, 3, none, some "a", none⟩

/-- A concrete removal payload matching the rows of tC1w. -/
def pC1w : EmojiPayload := ⟨1, 2, 0, 3, some "a", ((21 : ℤ) : ℚ)⟩

/-- A pending table holding two adds of the same Reaction Identity at
timestamps 10 and 20. -/
def tC1w : EmojiTable :=
  ⟨[⟨1, 1, 0, 2, 3, some "a", 10⟩, ⟨2, 1, 0, 2, 3, some "a", 20⟩], 3⟩

/-- A raw event with neither an emoji name nor a custom emoji id: its
emoji representation carries no reaction symbol at all. -/
def eC2 : RawReactionEvent := ⟨1, 2, 3, none, none, none⟩

/-- A concrete fixture event with a parseable unicode emoji name. -/
def eC2w : RawReactionEvent := ⟨4, 5, 6, some 9, some "b", none⟩

/-- An abuse-event table: four in-window events of user 7 (on two distinct
message and emoji combinations) and one of user 8. -/
def tC3 : EmojiTable :=
  ⟨[⟨1, 11, 0, 12, 7, some "x", 500⟩,
    ⟨2, 11, 0, 12, 7, some "x", 600⟩,
    ⟨3, 11, 0, 12, 7, some "x", 700⟩,
    ⟨4, 13, 0, 12, 7, some "y", 800⟩,
    ⟨5, 11, 0, 12, 8, some "x", 800⟩], 6⟩

/-- A concrete fixture event for the dwell classification. -/
def eC4 : RawReactionEvent := ⟨1, 2, 3, none, some "a", none⟩

/-- A pending table with one add matching eC4 at timestamp 20. -/
def ptC4 : EmojiTable := ⟨[⟨1, 1, 0, 2, 3, some "a", 20⟩], 2⟩

/-- A concrete fixture event for the unmatched-remove case. -/
def eC8 : RawReactionEvent := ⟨1, 2, 3, none, some "a", none⟩

/-- A concrete fixture event for the timestamp-truncation analysis. -/
def eC10 : RawReactionEvent := ⟨1, 2, 3, none, some "a", none⟩

/-- An abuse table with one event exactly at the window cutoff 400 and one
event one second older. -/
def tC6 : EmojiTable :=
  ⟨[⟨1, 1, 0, 2, 3, some "a", 400⟩, ⟨2, 1, 0, 2, 3, some "a", 399⟩], 3⟩

/-- An abuse table with one event exactly at the retention horizon. -/
def tC9 : EmojiTable := ⟨[⟨1, 1, 0, 2, 3, some "a", 100⟩], 2⟩

theorem pyInt_intCast (n : ℤ) : pyInt ((n : ℤ) : ℚ) = n := by
  unfold pyInt
  rw [Rat.num_intCast, Rat.den_intCast]
  exact Int.tdiv_one n

theorem pyInt_eq_floor (q : ℚ) (h : 0 ≤ q) : pyInt q = ⌊q⌋ := by
  unfold pyInt
  rw [Rat.floor_def]
  exact Int.tdiv_eq_ediv (Rat.num_nonneg.mpr h) (Int.ofNat_nonneg q.den)

theorem pyInt_cast_le (q : ℚ) (h : 0 ≤ q) : (pyInt q : ℚ) ≤ q := by
  rw [pyInt_eq_floor q h]
  exact Int.floor_le q

theorem lt_pyInt_add_one (q : ℚ) (h : 0 ≤ q) : q < (pyInt q : ℚ) + 1 := by
  rw [pyInt_eq_floor q h]
  exact Int.lt_floor_add_one q

theorem aggCutoff_cast (w n : ℤ) : aggCutoff ((w : ℤ) : ℚ) ((n : ℤ) : ℚ) = n - w := by
  unfold aggCutoff
  rw [pyInt_intCast w, ← Int.cast_sub, pyInt_intCast]

theorem pyInt_cast_mul_two (w : ℤ) : pyInt (((w : ℤ) : ℚ) * 2) = w * 2 := by
  have h : ((w : ℤ) : ℚ) * 2 = ((w * 2 : ℤ) : ℚ) := by push_cast; ring
  rw [h, pyInt_intCast]

theorem lexGE_refl (a : EmojiRow) : lexGE a a := Or.inr ⟨rfl, le_refl _⟩

theorem lexGE_trans {a b c : EmojiRow} (h1 : lexGE a b) (h2 : lexGE b c) : lexGE a c := by
  unfold lexGE at h1 h2 ⊢
  rcases h1 with h1 | ⟨e1, i1⟩
  · rcases h2 with h2 | ⟨e2, _⟩
    · exact Or.inl (h2.trans h1)
    · exact Or.inl (e2 ▸ h1)
  · rcases h2 with h2 | ⟨e2, i2⟩
    · exact Or.inl (e1 ▸ h2)
    · exact Or.inr ⟨e2.trans e1, i2.trans i1⟩

theorem bestRow_ge_left (a b : EmojiRow) : lexGE (bestRow a b) a := by
  unfold bestRow
  split
  · rename_i h
    rcases h with h | ⟨e, i⟩
    · exact Or.inl h
    · exact Or.inr ⟨e, le_of_lt i⟩
  · exact lexGE_refl a

theorem bestRow_ge_right (a b : EmojiRow) : lexGE (bestRow a b) b := by
  unfold bestRow
  split
  · exact lexGE_refl b
  · rename_i h
    push_neg at h
    obtain ⟨h1, h2⟩ := h
    rcases lt_or_eq_of_le h1 with hlt | heq
    · exact Or.inl hlt
    · exact Or.inr ⟨heq, h2 heq.symm⟩

theorem bestRow_eq_or (a b : EmojiRow) : bestRow a b = a ∨ bestRow a b = b := by
  unfold bestRow
  split
  · exact Or.inr rfl
  · exact Or.inl rfl

theorem foldl_bestRow_spec (rs : List EmojiRow) (r : EmojiRow) :
    (rs.foldl bestRow r = r ∨ rs.foldl bestRow r ∈ rs)
      ∧ lexGE (rs.foldl bestRow r) r
      ∧ ∀ x ∈ rs, lexGE (rs.foldl bestRow r) x := by
  induction rs generalizing r with
  | nil => exact ⟨Or.inl rfl, lexGE_refl r, by simp⟩
  | cons x xs ih =>
      simp only [List.foldl_cons]
      obtain ⟨hmem, hge, hall⟩ := ih (bestRow r x)
      refine ⟨?_, lexGE_trans hge (bestRow_ge_left r x), ?_⟩
      · rcases hmem with h | h
        · rcases bestRow_eq_or r x with h2 | h2
          · exact Or.inl (h.trans h2)
          · exact Or.inr (by rw [h, h2]; exact List.mem_cons_self x xs)
        · exact Or.inr (List.mem_cons_of_mem x h)
      · intro y hy
        rcases List.mem_cons.mp hy with h | h
        · rw [h]; exact lexGE_trans hge (bestRow_ge_right r x)
        · exact hall y h

theorem get_spec (p : EmojiPayload) (t : EmojiTable) (r : EmojiRow)
    (h : EmojiPayloadRepo.get p t = some r) :
    r ∈ t.rows ∧ rowMatches p r = true ∧
      ∀ x ∈ t.rows, rowMatches p x = true → lexGE r x := by
  unfold EmojiPayloadRepo.get at h
  cases hf : t.rows.filter (rowMatches p) with
  | nil => rw [hf] at h; exact absurd h (by simp)
  | cons a as =>
      rw [hf] at h
      have hr : r = as.foldl bestRow a := by
        simpa using h.symm
      obtain ⟨hmem, hge, hall⟩ := foldl_bestRow_spec as a
      have hrmem : r ∈ a :: as := by
        rcases hmem with h1 | h1
        · rw [hr, h1]; exact List.mem_cons_self a as
        · rw [hr]; exact List.mem_cons_of_mem a h1
      have hrfil : r ∈ t.rows.filter (rowMatches p) := hf ▸ hrmem
      have hrrows := List.mem_filter.mp hrfil
      refine ⟨hrrows.1, hrrows.2, ?_⟩
      intro x hx hmx
      have hxfil : x ∈ t.rows.filter (rowMatches p) := List.mem_filter.mpr ⟨hx, hmx⟩
      rw [hf] at hxfil
      rcases List.mem_cons.mp hxfil with h1 | h1
      · rw [h1, hr]; exact hge
      · rw [hr]; exact hall x h1

theorem remove_matched (bot : Option ℕ) (e : RawReactionEvent) (now θ : ℚ)
    (pt ab : EmojiTable) (r : EmojiRow)
    (ha : is_actionable_reaction bot e.user_id = true)
    (h : EmojiPayloadRepo.get (extract_payload_info e now) pt = some r) :
    on_raw_reaction_remove bot e now θ pt ab =
      if now - (r.timestamp : ℚ) ≤ θ then
        ((EmojiPayloadRepo.delete (extract_payload_info e now) pt).1,
         EmojiAbuserRepo.add (extract_payload_info e now) ab)
      else ((EmojiPayloadRepo.delete (extract_payload_info e now) pt).1, ab) := by
  unfold on_raw_reaction_remove EmojiPayloadRepo.get_and_delete
  simp only [ha, if_true, h]

theorem remove_pending_eq (bot : Option ℕ) (e : RawReactionEvent) (now θ : ℚ)
    (pt ab : EmojiTable) (r : EmojiRow)
    (ha : is_actionable_reaction bot e.user_id = true)
    (h : EmojiPayloadRepo.get (extract_payload_info e now) pt = some r) :
    (on_raw_reaction_remove bot e now θ pt ab).1 =
      (EmojiPayloadRepo.delete (extract_payload_info e now) pt).1 := by
  rw [remove_matched bot e now θ pt ab r ha h]
  split <;> rfl

theorem get_single (p : EmojiPayload) (r : EmojiRow) (n : ℕ)
    (h : rowMatches p r = true) :
    EmojiPayloadRepo.get p ⟨[r], n⟩ = some r := by
  unfold EmojiPayloadRepo.get
  simp [h]

theorem rowMatches_extract (e : RawReactionEvent) (t1 t2 : ℚ) (n : ℕ) (ts : ℤ) :
    rowMatches (extract_payload_info e t2)
      ⟨n, e.message_id, e.guild_id.getD 0, e.channel_id, e.user_id,
       (extract_payload_info e t1).emoji, ts⟩ = true := by
  simp [rowMatches, extract_payload_info, emojiWhere]

theorem dedupKeysGo_subset [DecidableEq β] (f : α → β) :
    ∀ (l : List α) (seen : List β) (x : α), x ∈ dedupKeysGo f seen l → x ∈ l := by
  intro l
  induction l with
  | nil => intro seen x hx; exact absurd hx (by simp [dedupKeysGo])
  | cons a as ih =>
      intro seen x hx
      unfold dedupKeysGo at hx
      split at hx
      · exact List.mem_cons_of_mem a (ih seen x hx)
      · rcases List.mem_cons.mp hx with h | h
        · exact h ▸ List.mem_cons_self a as
        · exact List.mem_cons_of_mem a (ih _ x h)

theorem dedupKeysGo_map_spec [DecidableEq β] (f : α → β) :
    ∀ (l : List α) (seen : List β),
      ((dedupKeysGo f seen l).map f).Nodup ∧
        ∀ b, b ∈ (dedupKeysGo f seen l).map f ↔ (b ∉ seen ∧ b ∈ l.map f) := by
  intro l
  induction l with
  | nil => intro seen; simp [dedupKeysGo]
  | cons a as ih =>
      intro seen
      by_cases h : f a ∈ seen
      · obtain ⟨h1, h2⟩ := ih seen
        simp only [dedupKeysGo, if_pos h]
        refine ⟨h1, fun b => ?_⟩
        rw [h2 b]
        constructor
        · rintro ⟨hb1, hb2⟩
          exact ⟨hb1, by simp [hb2]⟩
        · rintro ⟨hb1, hb2⟩
          simp only [List.map_cons, List.mem_cons] at hb2
          rcases hb2 with rfl | hb2
          · exact absurd h hb1
          · exact ⟨hb1, hb2⟩
      · obtain ⟨h1, h2⟩ := ih (f a :: seen)
        simp only [dedupKeysGo, if_neg h, List.map_cons]
        constructor
        · refine List.nodup_cons.mpr ⟨fun hc => ?_, h1⟩
          exact ((h2 (f a)).mp hc).1 (List.mem_cons_self _ _)
        · intro b
          rw [List.mem_cons, h2 b]
          constructor
          · rintro (rfl | ⟨hb1, hb2⟩)
            · exact ⟨h, by simp⟩
            · refine ⟨fun hc => hb1 (List.mem_cons_of_mem _ hc), by simp [hb2]⟩
          · rintro ⟨hb1, hb2⟩
            by_cases hba : b = f a
            · exact Or.inl hba
            · refine Or.inr ⟨?_, ?_⟩
              · simp only [List.mem_cons]
                rintro (hc | hc)
                · exact hba hc
                · exact hb1 hc
              · simp only [List.mem_cons] at hb2
                rcases hb2 with hc | hc
                · exact absurd hc hba
                · exact hc

theorem dedupKeys_map_nodup [DecidableEq β] (f : α → β) (l : List α) :
    ((dedupKeys f l).map f).Nodup :=
  (dedupKeysGo_map_spec f l []).1

theorem mem_dedupKeys_map [DecidableEq β] (f : α → β) (l : List α) (b : β) :
    b ∈ (dedupKeys f l).map f ↔ b ∈ l.map f := by
  unfold dedupKeys
  rw [(dedupKeysGo_map_spec f l []).2 b]
  simp

theorem dedupKeys_subset [DecidableEq β] (f : α → β) (l : List α) (x : α)
    (hx : x ∈ dedupKeys f l) : x ∈ l :=
  dedupKeysGo_subset f l [] x hx

theorem mem_dedupKeys_id (l : List β) [DecidableEq β] (b : β) :
    b ∈ dedupKeys id l ↔ b ∈ l := by
  have h := mem_dedupKeys_map id l b
  simpa using h

theorem nodup_dedupKeys_id (l : List β) [DecidableEq β] : (dedupKeys id l).Nodup := by
  have h := dedupKeys_map_nodup id l
  simpa using h

theorem mem_inWindow (cutoff : ℤ) (t : EmojiTable) (r : EmojiRow) :
    r ∈ inWindow cutoff t ↔ (r ∈ t.rows ∧ cutoff ≤ r.timestamp) := by
  unfold inWindow
  rw [List.mem_filter]
  simp

theorem mem_offenderIds (cutoff : ℤ) (maxCount : ℕ) (t : EmojiTable) (u : ℕ) :
    u ∈ offenderIds cutoff maxCount t ↔
      ((∃ r ∈ inWindow cutoff t, r.user_id = u) ∧
        maxCount < windowCount cutoff t u) := by
  unfold offenderIds
  rw [List.mem_filter, mem_dedupKeys_id]
  simp only [List.mem_map, decide_eq_true_eq]

theorem get_abusers_within_perm (cutoff : ℤ) (maxCount : ℕ) (t : EmojiTable) :
    (EmojiAbuserRepo.get_abusers_within cutoff maxCount t).Perm
      ((inWindow cutoff t).filter
        (fun r => decide (r.user_id ∈ offenderIds cutoff maxCount t))) :=
  List.perm_insertionSort _ _

theorem mem_get_abusers_within (cutoff : ℤ) (maxCount : ℕ) (t : EmojiTable)
    (r : EmojiRow) :
    r ∈ EmojiAbuserRepo.get_abusers_within cutoff maxCount t ↔
      (r ∈ t.rows ∧ cutoff ≤ r.timestamp ∧
        maxCount < windowCount cutoff t r.user_id) := by
  rw [(get_abusers_within_perm cutoff maxCount t).mem_iff]
  rw [List.mem_filter]
  simp only [decide_eq_true_eq, mem_offenderIds, mem_inWindow]
  constructor
  · rintro ⟨⟨h1, h2⟩, _, hc⟩
    exact ⟨h1, h2, hc⟩
  · rintro ⟨h1, h2, hc⟩
    exact ⟨⟨h1, h2⟩, ⟨r, ⟨h1, h2⟩, rfl⟩, hc⟩

theorem countsOf_eq (cutoff : ℤ) (maxCount : ℕ) (t : EmojiTable) (u : ℕ) :
    countsOf cutoff maxCount t u =
      if maxCount < windowCount cutoff t u then windowCount cutoff t u else 0 := by
  unfold countsOf
  have hp := (get_abusers_within_perm cutoff maxCount t).filter (fun r => r.user_id == u)
  rw [hp.length_eq, List.filter_filter]
  by_cases hmax : maxCount < windowCount cutoff t u
  · rw [if_pos hmax]
    unfold windowCount
    apply congrArg List.length
    apply List.filter_congr
    intro r hr
    by_cases hru : r.user_id = u
    · have hoff : u ∈ offenderIds cutoff maxCount t :=
        (mem_offenderIds _ _ _ _).mpr ⟨⟨r, hr, hru⟩, hmax⟩
      simp [hru, hoff]
    · simp [hru]
  · rw [if_neg hmax, List.length_eq_zero, List.filter_eq_nil_iff]
    intro r hr
    simp only [Bool.and_eq_true, beq_iff_eq, decide_eq_true_eq, not_and]
    intro hru hoff
    rw [hru] at hoff
    exact absurd ((mem_offenderIds _ _ _ _).mp hoff).2 hmax

theorem exists_sel_row (cutoff : ℤ) (maxCount : ℕ) (t : EmojiTable) (u : ℕ)
    (hmax : maxCount < windowCount cutoff t u) :
    ∃ r ∈ EmojiAbuserRepo.get_abusers_within cutoff maxCount t, r.user_id = u := by
  unfold windowCount at hmax
  have hpos : 0 < ((inWindow cutoff t).filter (fun r => r.user_id == u)).length :=
    lt_of_le_of_lt (Nat.zero_le _) hmax
  obtain ⟨r, hr⟩ := List.exists_mem_of_length_pos hpos
  have hr2 := List.mem_filter.mp hr
  have hru : r.user_id = u := by simpa using hr2.2
  have hw := (mem_inWindow cutoff t r).mp hr2.1
  refine ⟨r, (mem_get_abusers_within cutoff maxCount t r).mpr ⟨hw.1, hw.2, ?_⟩, hru⟩
  rw [hru]
  unfold windowCount
  exact hmax

theorem mem_warnUsersOf (cutoff : ℤ) (maxCount : ℕ) (t : EmojiTable) (u : ℕ) :
    u ∈ warnUsersOf cutoff maxCount t ↔ maxCount < windowCount cutoff t u := by
  unfold warnUsersOf
  rw [List.mem_filter, mem_dedupKeys_id]
  simp only [List.mem_map, decide_eq_true_eq, countsOf_eq]
  constructor
  · rintro ⟨_, hc⟩
    by_cases hmax : maxCount < windowCount cutoff t u
    · exact hmax
    · rw [if_neg hmax] at hc
      exact absurd hc (by omega)
  · intro hmax
    obtain ⟨r, hrsel, hru⟩ := exists_sel_row cutoff maxCount t u hmax
    exact ⟨⟨r, hrsel, hru⟩, by rw [if_pos hmax]; exact hmax⟩

theorem nodup_warnUsersOf (cutoff : ℤ) (maxCount : ℕ) (t : EmojiTable) :
    (warnUsersOf cutoff maxCount t).Nodup :=
  (nodup_dedupKeys_id _).filter _

theorem aggLoop_rows_mem (ev : ℕ → List EmojiRow) (cnt : ℕ → ℕ) :
    ∀ (us : List ℕ) (t : EmojiTable) (r : EmojiRow),
      r ∈ (aggLoop ev cnt us t).2.rows ↔ (r ∈ t.rows ∧ r.user_id ∉ us) := by
  intro us
  induction us with
  | nil => intro t r; simp [aggLoop]
  | cons u us ih =>
      intro t r
      simp only [aggLoop]
      rw [ih]
      unfold EmojiAbuserRepo.delete_user_records
      constructor
      · rintro ⟨hf, hnotin⟩
        have hm := List.mem_filter.mp hf
        refine ⟨hm.1, ?_⟩
        simp only [List.mem_cons, not_or]
        exact ⟨by simpa using hm.2, hnotin⟩
      · rintro ⟨hrows, hnotin⟩
        simp only [List.mem_cons, not_or] at hnotin
        exact ⟨List.mem_filter.mpr ⟨hrows, by simpa using hnotin.1⟩, hnotin.2⟩

theorem aggLoop_alert_mem (ev : ℕ → List EmojiRow) (cnt : ℕ → ℕ) :
    ∀ (us : List ℕ) (t : EmojiTable) (u c : ℕ) (e1 : List EmojiRow),
      AggAction.alert u c e1 ∈ (aggLoop ev cnt us t).1 ↔
        (u ∈ us ∧ c = cnt u ∧ e1 = ev u) := by
  intro us
  induction us with
  | nil => intro t u c e1; simp [aggLoop]
  | cons v vs ih =>
      intro t u c e1
      simp only [aggLoop, List.mem_cons]
      rw [ih]
      constructor
      · rintro (h | h | h)
        · rw [AggAction.alert.injEq] at h
          obtain ⟨h1, h2, h3⟩ := h
          subst h1
          exact ⟨Or.inl rfl, h2, h3⟩
        · exact absurd h (by simp)
        · exact ⟨Or.inr h.1, h.2⟩
      · rintro ⟨hmem, hc, he⟩
        rcases hmem with h | h
        · subst h
          left
          rw [hc, he]
        · right; right
          exact ⟨h, hc, he⟩

theorem aggLoop_alert_count (ev : ℕ → List EmojiRow) (cnt : ℕ → ℕ) (u : ℕ) :
    ∀ (us : List ℕ) (t : EmojiTable),
      ((aggLoop ev cnt us t).1.filter (isAlertOf u)).length = us.count u := by
  intro us
  induction us with
  | nil => intro t; simp [aggLoop]
  | cons v vs ih =>
      intro t
      simp only [aggLoop, List.filter_cons]
      by_cases hv : v = u
      · subst hv
        simp [isAlertOf, ih, List.count_cons]
      · simp [isAlertOf, ih, List.count_cons, hv]

theorem aggLoop_alert_before_purge (ev : ℕ → List EmojiRow) (cnt : ℕ → ℕ) :
    ∀ (us : List ℕ) (t : EmojiTable) (u : ℕ), u ∈ us →
      ∃ d, List.Sublist [AggAction.alert u (cnt u) (ev u), AggAction.purge u d]
        (aggLoop ev cnt us t).1 := by
  intro us
  induction us with
  | nil =>
      intro t u hu
      exact absurd hu (by simp)
  | cons v vs ih =>
      intro t u hu
      rcases List.mem_cons.mp hu with h | h
      · subst h
        refine ⟨(EmojiAbuserRepo.delete_user_records u t).2, ?_⟩
        simp only [aggLoop]
        exact List.Sublist.cons₂ _ (List.Sublist.cons₂ _ (List.nil_sublist _))
      · obtain ⟨d, hd⟩ := ih (EmojiAbuserRepo.delete_user_records v t).1 u h
        refine ⟨d, ?_⟩
        simp only [aggLoop]
        exact (hd.cons _).cons _

theorem every_minute_task_eq (W : ℚ) (maxCount : ℕ) (now : ℚ) (t : EmojiTable) (u : ℕ)
    (hmax : maxCount < windowCount (aggCutoff W now) t u) :
    every_minute_task W maxCount true now t =
      aggLoop (evidenceFor (aggCutoff W now) maxCount t)
        (countsOf (aggCutoff W now) maxCount t)
        (warnUsersOf (aggCutoff W now) maxCount t) t := by
  obtain ⟨r, hr, _⟩ := exists_sel_row (aggCutoff W now) maxCount t u hmax
  have hne :
      ¬ (EmojiAbuserRepo.get_abusers_within (aggCutoff W now) maxCount t).isEmpty = true := by
    rw [List.isEmpty_iff]
    exact fun hc => (List.ne_nil_of_mem hr) hc
  simp only [every_minute_task]
  rw [if_neg hne, if_pos trivial]

theorem alert_imp_windowCount (W : ℚ) (maxCount : ℕ) (now : ℚ) (t : EmojiTable)
    (u c : ℕ) (e1 : List EmojiRow)
    (h : AggAction.alert u c e1 ∈ (every_minute_task W maxCount true now t).1) :
    maxCount < windowCount (aggCutoff W now) t u := by
  simp only [every_minute_task] at h
  by_cases hemp :
      (EmojiAbuserRepo.get_abusers_within (aggCutoff W now) maxCount t).isEmpty = true
  · rw [if_pos hemp] at h
    exact absurd h (by simp)
  · rw [if_neg hemp] at h
    have h2 := (aggLoop_alert_mem _ _ _ _ _ _ _).mp (by simpa using h)
    exact (mem_warnUsersOf _ _ _ _).mp h2.1

/-- C1 (amended): for every remove whose Reaction Identity matches at
least one stored Pending Reaction, get selects the most recently added
matching record (greatest added_at, ties broken by highest surrogate id,
LIFO), but get_and_delete then deletes every Pending Reaction matching
the Reaction Identity, not only the selected one: the resulting store is
the old store minus all matching rows, rows of other identities
untouched. -/
theorem C1_lifo_select_but_delete_all (p : EmojiPayload) (t : EmojiTable) (r : EmojiRow)
    (h : EmojiPayloadRepo.get p t = some r) :
    r ∈ t.rows ∧ rowMatches p r = true
      ∧ (∀ x ∈ t.rows, rowMatches p x = true →
          x.timestamp < r.timestamp ∨ (x.timestamp = r.timestamp ∧ x.id ≤ r.id))
      ∧ EmojiPayloadRepo.get_and_delete p t =
          (some r, ⟨t.rows.filter (fun x => ! rowMatches p x), t.nextId⟩) := by
  obtain ⟨h1, h2, h3⟩ := get_spec p t r h
  refine ⟨h1, h2, fun x hx hmx => h3 x hx hmx, ?_⟩
  unfold EmojiPayloadRepo.get_and_delete
  rw [h]
  rfl

/-- C1 counterexample: two adds of the same Reaction Identity at
timestamps 10 and 20 followed by one remove leave the Pending Reaction
Store empty: the record from the earlier add does not survive, because
the delete issued by get_and_delete has no timestamp or id restriction
and removes every matching row.  This falsifies the claim that exactly
the selected record is deleted and the t1 record still exists. -/
theorem C1_counterexample :
    (on_raw_reaction_remove none eC1 ((21 : ℤ) : ℚ) ((3 : ℤ) : ℚ)
        (on_raw_reaction_add none eC1 ((20 : ℤ) : ℚ)
          (on_raw_reaction_add none eC1 ((10 : ℤ) : ℚ) emptyTable))
        emptyTable).1.rows = [] := by
  have hpt : on_raw_reaction_add none eC1 ((20 : ℤ) : ℚ)
      (on_raw_reaction_add none eC1 ((10 : ℤ) : ℚ) emptyTable) =
      ⟨[⟨1, 1, 0, 2, 3, some "a", pyInt ((10 : ℤ) : ℚ)⟩,
        ⟨2, 1, 0, 2, 3, some "a", pyInt ((20 : ℤ) : ℚ)⟩], 3⟩ := rfl
  rw [pyInt_intCast 10, pyInt_intCast 20] at hpt
  rw [hpt]
  have h : EmojiPayloadRepo.get (extract_payload_info eC1 ((21 : ℤ) : ℚ))
      ⟨[⟨1, 1, 0, 2, 3, some "a", 10⟩, ⟨2, 1, 0, 2, 3, some "a", 20⟩], 3⟩ =
      some ⟨2, 1, 0, 2, 3, some "a", 20⟩ := by decide
  rw [remove_pending_eq none eC1 _ _ _ _ _ rfl h]
  decide

/-- Witness for C1: on a concrete store with two matching rows at
timestamps 10 and 20, get_and_delete returns the newer row and leaves no
matching rows behind. -/
theorem C1_witness :
    EmojiPayloadRepo.get_and_delete pC1w tC1w =
      (some ⟨2, 1, 0, 2, 3, some "a", 20⟩, ⟨[], 3⟩) := by
  have h : EmojiPayloadRepo.get pC1w tC1w = some ⟨2, 1, 0, 2, 3, some "a", 20⟩ := by
    decide
  have hc := C1_lifo_select_but_delete_all pC1w tC1w _ h
  rw [hc.2.2.2]
  decide

/-- C2 (amended): emoji extraction at ingestion is total and never drops
an event: the emoji name, when present, is encoded by the unicode-escape
codec, which always succeeds; an event with neither a name nor a custom
emoji id is stored with an empty emoji key.  Every actionable add
notification therefore inserts exactly one Pending Reaction; no add event
is dropped before insertion because of its emoji representation. -/
theorem C2_ingest_total (bot : Option ℕ) (e : RawReactionEvent) (now : ℚ) (t : EmojiTable)
    (ha : is_actionable_reaction bot e.user_id = true) :
    on_raw_reaction_add bot e now t =
      ⟨t.rows ++ [⟨t.nextId, e.message_id, e.guild_id.getD 0, e.channel_id, e.user_id,
                  (extract_payload_info e now).emoji, pyInt now⟩],
       t.nextId + 1⟩ := by
  unfold on_raw_reaction_add
  simp only [ha, if_true]
  rfl

/-- C2 counterexample: an add notification whose emoji representation
carries no reaction symbol at all (no name, no custom id, so no canonical
emoji key can be parsed from it) is not dropped: a Pending Reaction with
the empty emoji key is inserted into the store.  This falsifies the claim
that such events are dropped before any Pending Reaction is inserted. -/
theorem C2_counterexample :
    (on_raw_reaction_add none eC2 ((5 : ℤ) : ℚ) emptyTable).rows.map
        (fun r => (r.id, r.message_id, r.user_id, r.emoji)) = [(1, 1, 3, some "")] := by
  decide

/-- Witness for C2: a concrete actionable add inserts exactly one row. -/
theorem C2_witness :
    (on_raw_reaction_add none eC2w ((5 : ℤ) : ℚ) emptyTable).rows.length = 1 := by
  rw [C2_ingest_total none eC2w ((5 : ℤ) : ℚ) emptyTable rfl]
  rfl

/-- C4 (confirmed): on a successfully matched remove, with dwell measured
as the removal instant minus the matched record read-back added_at, a
dwell within reacted_time_window_seconds appends exactly one Abuse Event
whose occurred_at is the removal instant as persisted (truncated to whole
epoch seconds) and whose identity fields are copied from the remove
event; a dwell strictly beyond the threshold appends nothing and leaves
the Abuse Event Store unchanged, the Pending Reaction Store being updated
by the match deletion alone in both cases. -/
theorem C4_dwell_classification (bot : Option ℕ) (e : RawReactionEvent) (now θ : ℚ)
    (pt ab : EmojiTable) (r : EmojiRow)
    (ha : is_actionable_reaction bot e.user_id = true)
    (h : EmojiPayloadRepo.get (extract_payload_info e now) pt = some r) :
    (now - (r.timestamp : ℚ) ≤ θ →
      (on_raw_reaction_remove bot e now θ pt ab).2.rows =
        ab.rows ++ [⟨ab.nextId, e.message_id, e.guild_id.getD 0, e.channel_id, e.user_id,
                    (extract_payload_info e now).emoji, pyInt now⟩])
      ∧ (θ < now - (r.timestamp : ℚ) →
          (on_raw_reaction_remove bot e now θ pt ab).2 = ab)
      ∧ (on_raw_reaction_remove bot e now θ pt ab).1 =
          (EmojiPayloadRepo.delete (extract_payload_info e now) pt).1 := by
  rw [remove_matched bot e now θ pt ab r ha h]
  refine ⟨fun hd => ?_, fun hd => ?_, ?_⟩
  · rw [if_pos hd]
    rfl
  · rw [if_neg (not_le.mpr hd)]
  · split <;> rfl

/-- Witness for C4: a concrete matched remove with dwell 1 second and
threshold 3 seconds records exactly one abuse event carrying the remove
identity, and the pending row is gone. -/
theorem C4_witness :
    (on_raw_reaction_remove none eC4 ((21 : ℤ) : ℚ) ((3 : ℤ) : ℚ) ptC4 emptyTable).2.rows.map
        (fun r => (r.user_id, r.emoji)) = [(3, some "a")]
      ∧ (on_raw_reaction_remove none eC4 ((21 : ℤ) : ℚ) ((3 : ℤ) : ℚ) ptC4 emptyTable).1.rows
          = [] := by
  have h : EmojiPayloadRepo.get (extract_payload_info eC4 ((21 : ℤ) : ℚ)) ptC4 =
      some ⟨1, 1, 0, 2, 3, some "a", 20⟩ := by decide
  have hc := C4_dwell_classification none eC4 ((21 : ℤ) : ℚ) ((3 : ℤ) : ℚ) ptC4 emptyTable
    _ rfl h
  have hd : ((21 : ℤ) : ℚ) - (((20 : ℤ) : ℤ) : ℚ) ≤ ((3 : ℤ) : ℚ) := by
    push_cast
    norm_num
  constructor
  · rw [hc.1 hd]
    decide
  · rw [hc.2.2]
    decide

/-- C8 (confirmed): a remove notification whose Reaction Identity matches
no stored Pending Reaction is a no-op: it records no Abuse Event, raises
no error, and leaves both stores unchanged. -/
theorem C8_unmatched_remove_noop (bot : Option ℕ) (e : RawReactionEvent) (now θ : ℚ)
    (pt ab : EmojiTable)
    (h : EmojiPayloadRepo.get (extract_payload_info e now) pt = none) :
    on_raw_reaction_remove bot e now θ pt ab = (pt, ab) := by
  unfold on_raw_reaction_remove EmojiPayloadRepo.get_and_delete
  cases ha : is_actionable_reaction bot e.user_id
  · simp [ha]
  · simp [ha, h]

/-- Witness for C8: a remove against the empty store changes nothing. -/
theorem C8_witness :
    on_raw_reaction_remove none eC8 ((9 : ℤ) : ℚ) ((3 : ℤ) : ℚ) emptyTable emptyTable =
      (emptyTable, emptyTable) :=
  C8_unmatched_remove_noop none eC8 ((9 : ℤ) : ℚ) ((3 : ℤ) : ℚ) emptyTable emptyTable rfl

/-- C3 (confirmed): for every user flagged by an aggregator run (log
channel available), the run emits exactly one alert for that user and the
alert precedes the purge action in the observable trace; the purge
removes every Abuse Event with that user_id, so the resulting store has
no row of that user, re-running the aggregator with the same clock and
window selects zero events for that user, and the re-run emits no alert
for them. -/
theorem C3_alert_then_full_purge (W : ℚ) (maxCount : ℕ) (now : ℚ) (t : EmojiTable) (u : ℕ)
    (hu : u ∈ warnUsersOf (aggCutoff W now) maxCount t) :
    (((every_minute_task W maxCount true now t).1.filter (isAlertOf u)).length = 1)
      ∧ (∃ d, List.Sublist
            [AggAction.alert u (countsOf (aggCutoff W now) maxCount t u)
               (evidenceFor (aggCutoff W now) maxCount t u),
             AggAction.purge u d]
            (every_minute_task W maxCount true now t).1)
      ∧ (∀ r ∈ (every_minute_task W maxCount true now t).2.rows, r.user_id ≠ u)
      ∧ ((EmojiAbuserRepo.get_abusers_within (aggCutoff W now) maxCount
            (every_minute_task W maxCount true now t).2).filter
          (fun r => r.user_id == u) = [])
      ∧ (∀ c e1, AggAction.alert u c e1 ∉
            (every_minute_task W maxCount true now
              (every_minute_task W maxCount true now t).2).1) := by
  have hmax := (mem_warnUsersOf _ _ _ _).mp hu
  have heq := every_minute_task_eq W maxCount now t u hmax
  rw [heq]
  refine ⟨?_, ?_, ?_, ?_, ?_⟩
  · rw [aggLoop_alert_count]
    exact List.count_eq_one_of_mem (nodup_warnUsersOf _ _ _) hu
  · exact aggLoop_alert_before_purge _ _ _ t u hu
  · intro r hr hru
    have h2 := (aggLoop_rows_mem _ _ _ t r).mp hr
    exact h2.2 (by rw [hru]; exact hu)
  · rw [List.filter_eq_nil_iff]
    intro r hr
    simp only [beq_iff_eq]
    intro hru
    have hrows := ((mem_get_abusers_within _ _ _ _).mp hr).1
    have h2 := (aggLoop_rows_mem _ _ _ t r).mp hrows
    exact h2.2 (by rw [hru]; exact hu)
  · intro c e1 hmem2
    have hmax2 := alert_imp_windowCount W maxCount now _ u c e1 hmem2
    obtain ⟨r, hrsel, hru⟩ := exists_sel_row (aggCutoff W now) maxCount _ u hmax2
    have hrrows := ((mem_get_abusers_within _ _ _ _).mp hrsel).1
    have h2 := (aggLoop_rows_mem _ _ _ t r).mp hrrows
    exact h2.2 (by rw [hru]; exact hu)

/-- Witness for C3: in a concrete store where user 7 has four in-window
events (limit 3), the run emits exactly one alert for user 7 and leaves
no row of user 7 in the store. -/
theorem C3_witness :
    (7 : ℕ) ∈ warnUsersOf (aggCutoff ((3600 : ℤ) : ℚ) ((4000 : ℤ) : ℚ)) 3 tC3
      ∧ (((every_minute_task ((3600 : ℤ) : ℚ) 3 true ((4000 : ℤ) : ℚ) tC3).1.filter
            (isAlertOf 7)).length = 1)
      ∧ (∀ r ∈ (every_minute_task ((3600 : ℤ) : ℚ) 3 true ((4000 : ℤ) : ℚ) tC3).2.rows,
          r.user_id ≠ 7) := by
  have hu : (7 : ℕ) ∈ warnUsersOf (aggCutoff ((3600 : ℤ) : ℚ) ((4000 : ℤ) : ℚ)) 3 tC3 := by
    rw [aggCutoff_cast]
    decide
  have hc := C3_alert_then_full_purge ((3600 : ℤ) : ℚ) 3 ((4000 : ℤ) : ℚ) tC3 7 hu
  exact ⟨hu, hc.1, hc.2.2.1⟩

/-- C5 (confirmed): in an aggregator run with the log channel available,
a user receives an alert if and only if the number of their Abuse Events
with occurred_at inside the trailing window strictly exceeds
warning_max_allowed_removal; in particular a user whose count equals the
limit exactly is never flagged. -/
theorem C5_flagged_iff_strictly_above (W : ℚ) (maxCount : ℕ) (now : ℚ)
    (t : EmojiTable) (u : ℕ) :
    (∃ c e1, AggAction.alert u c e1 ∈ (every_minute_task W maxCount true now t).1) ↔
      maxCount < windowCount (aggCutoff W now) t u := by
  constructor
  · rintro ⟨c, e1, h⟩
    exact alert_imp_windowCount W maxCount now t u c e1 h
  · intro hmax
    rw [every_minute_task_eq W maxCount now t u hmax]
    exact ⟨countsOf (aggCutoff W now) maxCount t u,
           evidenceFor (aggCutoff W now) maxCount t u,
           (aggLoop_alert_mem _ _ _ _ _ _ _).mpr
             ⟨(mem_warnUsersOf _ _ _ _).mpr hmax, rfl, rfl⟩⟩

/-- C6 (confirmed): the aggregation selection keeps exactly the rows with
occurred_at at or after the computed cutoff: a row exactly at the cutoff
is in the window, a row one second older is not; the full selection of
get_abusers_within consists exactly of the in-window rows of users whose
in-window count strictly exceeds the limit. -/
theorem C6_window_inclusive_lower_edge (W now : ℚ) (maxCount : ℕ) (t : EmojiTable) :
    (∀ r, r ∈ inWindow (aggCutoff W now) t ↔
        (r ∈ t.rows ∧ aggCutoff W now ≤ r.timestamp))
      ∧ (∀ r ∈ t.rows, r.timestamp = aggCutoff W now → r ∈ inWindow (aggCutoff W now) t)
      ∧ (∀ r : EmojiRow, r.timestamp = aggCutoff W now - 1 →
          r ∉ inWindow (aggCutoff W now) t)
      ∧ (∀ r, r ∈ EmojiAbuserRepo.get_abusers_within (aggCutoff W now) maxCount t ↔
          (r ∈ t.rows ∧ aggCutoff W now ≤ r.timestamp ∧
            maxCount < windowCount (aggCutoff W now) t r.user_id)) := by
  refine ⟨fun r => mem_inWindow _ _ _, ?_, ?_, fun r => mem_get_abusers_within _ _ _ _⟩
  · intro r hr hts
    exact (mem_inWindow _ _ _).mpr ⟨hr, le_of_eq hts.symm⟩
  · intro r hts hmem
    have h2 := ((mem_inWindow _ _ _).mp hmem).2
    rw [hts] at h2
    omega

/-- Witness for C6: with window 3600 and clock 4000 the cutoff is 400; a
concrete row at timestamp 400 is selected and a concrete row at 399 is
not. -/
theorem C6_witness :
    (⟨1, 1, 0, 2, 3, some "a", 400⟩ : EmojiRow) ∈
        inWindow (aggCutoff ((3600 : ℤ) : ℚ) ((4000 : ℤ) : ℚ)) tC6
      ∧ (⟨2, 1, 0, 2, 3, some "a", 399⟩ : EmojiRow) ∉
        inWindow (aggCutoff ((3600 : ℤ) : ℚ) ((4000 : ℤ) : ℚ)) tC6 := by
  have hc := C6_window_inclusive_lower_edge ((3600 : ℤ) : ℚ) ((4000 : ℤ) : ℚ) 3 tC6
  constructor
  · apply hc.2.1
    · decide
    · rw [aggCutoff_cast]
      decide
  · apply hc.2.2.1
    rw [aggCutoff_cast]
    decide

/-- C7 (confirmed): the evidence attached to a flagged user, obtained by
first-seen deduplication over the ordered selection and then restriction
to that user, contains every distinct evidence key
(message_id, user_id, channel_id, server_id, emoji_key) occurring among
the selected events of that user exactly once: its key list has no
duplicates and covers exactly the keys of the selected rows of the user. -/
theorem C7_evidence_exactly_once (W now : ℚ) (maxCount : ℕ) (t : EmojiTable) (u : ℕ) :
    ((evidenceFor (aggCutoff W now) maxCount t u).map dedupKey).Nodup
      ∧ (∀ k, k ∈ (evidenceFor (aggCutoff W now) maxCount t u).map dedupKey ↔
          ∃ r ∈ EmojiAbuserRepo.get_abusers_within (aggCutoff W now) maxCount t,
            r.user_id = u ∧ dedupKey r = k) := by
  constructor
  · have hsub : (evidenceFor (aggCutoff W now) maxCount t u).Sublist
        (matchAbusersOf (aggCutoff W now) maxCount t) := List.filter_sublist _
    exact (dedupKeys_map_nodup dedupKey _).sublist (hsub.map dedupKey)
  · intro k
    constructor
    · intro hk
      rw [List.mem_map] at hk
      obtain ⟨r, hr, hkr⟩ := hk
      have hrf := List.mem_filter.mp hr
      have hrm : r ∈ EmojiAbuserRepo.get_abusers_within (aggCutoff W now) maxCount t :=
        dedupKeys_subset _ _ _ hrf.1
      exact ⟨r, hrm, by simpa using hrf.2, hkr⟩
    · rintro ⟨r, hr, hru, hkr⟩
      have hk1 : k ∈ (matchAbusersOf (aggCutoff W now) maxCount t).map dedupKey := by
        unfold matchAbusersOf
        rw [mem_dedupKeys_map]
        exact List.mem_map.mpr ⟨r, hr, hkr⟩
      rw [List.mem_map] at hk1
      obtain ⟨r2, hr2, hkr2⟩ := hk1
      have hu2 : r2.user_id = u := by
        have h3 : (dedupKey r2).2.1 = (dedupKey r).2.1 := by rw [hkr2, hkr]
        have h4 : r2.user_id = r.user_id := h3
        rw [h4, hru]
      exact List.mem_map.mpr ⟨r2, List.mem_filter.mpr ⟨hr2, by simp [hu2]⟩, hkr2⟩

/-- C9 (confirmed): a Retention Sweeper run deletes exactly the Abuse
Events with occurred_at strictly below the computed horizon cutoff
(now minus int(warning_time_window_seconds times 2)); a row exactly at
the horizon is retained; the returned value counts the deleted rows. -/
theorem C9_retention_boundary (W now : ℚ) (t : EmojiTable) :
    (∀ r, r ∈ (every_sixty_minutes_task W now t).1.rows ↔
        (r ∈ t.rows ∧ pyInt (now - ((pyInt (W * 2) : ℤ) : ℚ)) ≤ r.timestamp))
      ∧ (every_sixty_minutes_task W now t).2 =
          (t.rows.filter
            (fun r => decide (r.timestamp < pyInt (now - ((pyInt (W * 2) : ℤ) : ℚ))))).length
      ∧ (∀ r ∈ t.rows, r.timestamp = pyInt (now - ((pyInt (W * 2) : ℤ) : ℚ)) →
          r ∈ (every_sixty_minutes_task W now t).1.rows) := by
  unfold every_sixty_minutes_task EmojiAbuserRepo.prune
  refine ⟨fun r => ?_, rfl, fun r hr hts => ?_⟩
  · rw [List.mem_filter]
    simp [not_lt]
  · rw [List.mem_filter]
    refine ⟨hr, ?_⟩
    simp [hts]

/-- Witness for C9: with window 100 and clock 300 the horizon cutoff is
100; a concrete row at timestamp exactly 100 survives the sweep. -/
theorem C9_witness :
    (⟨1, 1, 0, 2, 3, some "a", 100⟩ : EmojiRow) ∈
      (every_sixty_minutes_task ((100 : ℤ) : ℚ) ((300 : ℤ) : ℚ) tC9).1.rows := by
  have hc := C9_retention_boundary ((100 : ℤ) : ℚ) ((300 : ℤ) : ℚ) tC9
  apply hc.2.2
  · decide
  · rw [pyInt_cast_mul_two, ← Int.cast_sub, pyInt_intCast]
    decide

/-- C10 (confirmed): timestamps are persisted as whole epoch seconds (for
the nonnegative epoch instants produced by the clock, int() truncation is
the floor), so the added_at read back on a match is below the true add
instant by less than one second; the computed dwell is therefore at least
the true dwell; the pair is classified abusive exactly when the computed
dwell is within the threshold, hence a pair whose true dwell is within
the threshold may fail to be classified, while a pair whose true dwell
exceeds the threshold by more than one second is never classified. -/
theorem C10_truncated_persistence :
    (∀ (e : RawReactionEvent) (ta tr θ : ℚ), 0 ≤ ta →
      (((pyInt ta : ℤ) : ℚ) ≤ ta ∧ ta < ((pyInt ta : ℤ) : ℚ) + 1)
        ∧ tr - ta ≤ tr - ((pyInt ta : ℤ) : ℚ)
        ∧ (((on_raw_reaction_remove none e tr θ
              (on_raw_reaction_add none e ta emptyTable) emptyTable).2.rows ≠ []) ↔
            tr - ((pyInt ta : ℤ) : ℚ) ≤ θ)
        ∧ (θ + 1 < tr - ta →
            (on_raw_reaction_remove none e tr θ
              (on_raw_reaction_add none e ta emptyTable) emptyTable).2.rows = []))
      ∧ (∃ (e : RawReactionEvent) (ta tr : ℚ), 0 ≤ ta ∧ tr - ta ≤ mkRat 5 2 ∧
          (on_raw_reaction_remove none e tr (mkRat 5 2)
            (on_raw_reaction_add none e ta emptyTable) emptyTable).2.rows = []) := by
  constructor
  · intro e ta tr θ hta
    have hb1 : ((pyInt ta : ℤ) : ℚ) ≤ ta := pyInt_cast_le ta hta
    have hb2 : ta < ((pyInt ta : ℤ) : ℚ) + 1 := lt_pyInt_add_one ta hta
    have hpt : on_raw_reaction_add none e ta emptyTable =
        ⟨[⟨1, e.message_id, e.guild_id.getD 0, e.channel_id, e.user_id,
           (extract_payload_info e ta).emoji, pyInt ta⟩], 2⟩ := rfl
    have hg : EmojiPayloadRepo.get (extract_payload_info e tr)
        (on_raw_reaction_add none e ta emptyTable) =
        some ⟨1, e.message_id, e.guild_id.getD 0, e.channel_id, e.user_id,
              (extract_payload_info e ta).emoji, pyInt ta⟩ := by
      rw [hpt]
      exact get_single _ _ _ (rowMatches_extract e ta tr 1 (pyInt ta))
    have hrm := remove_matched none e tr θ (on_raw_reaction_add none e ta emptyTable)
        emptyTable _ rfl hg
    refine ⟨⟨hb1, hb2⟩, by linarith, ?_, ?_⟩
    · rw [hrm]
      by_cases hc : tr - ((pyInt ta : ℤ) : ℚ) ≤ θ
      · rw [if_pos hc]
        exact iff_of_true (by simp [EmojiAbuserRepo.add, insertPayload, emptyTable]) hc
      · rw [if_neg hc]
        exact iff_of_false (by simp [emptyTable]) hc
    · intro hfar
      have hgt : θ < tr - ((pyInt ta : ℤ) : ℚ) := by linarith
      rw [hrm, if_neg (not_le.mpr hgt)]
      rfl
  · refine ⟨eC10, mkRat 1 2, ((3 : ℤ) : ℚ), ?_, ?_, ?_⟩
    · rw [Rat.mkRat_eq_div]
      norm_num
    · rw [Rat.mkRat_eq_div, Rat.mkRat_eq_div]
      push_cast
      norm_num
    · have hpt : on_raw_reaction_add none eC10 (mkRat 1 2) emptyTable =
          ⟨[⟨1, 1, 0, 2, 3, some "a", 0⟩], 2⟩ := rfl
      have hg : EmojiPayloadRepo.get (extract_payload_info eC10 ((3 : ℤ) : ℚ))
          (on_raw_reaction_add none eC10 (mkRat 1 2) emptyTable) =
          some ⟨1, 1, 0, 2, 3, some "a", 0⟩ := by
        rw [hpt]
        decide
      rw [remove_matched none eC10 ((3 : ℤ) : ℚ) (mkRat 5 2) _ _ _ rfl hg]
      rw [if_neg ?hneg]
      case hneg =>
        rw [Rat.mkRat_eq_div]
        push_cast
        norm_num
      rfl

/-- Witness for C10: at the concrete nonnegative instant 7 the persisted
timestamp bounds hold. -/
theorem C10_witness :
    ((pyInt ((7 : ℤ) : ℚ) : ℤ) : ℚ) ≤ ((7 : ℤ) : ℚ)
      ∧ ((7 : ℤ) : ℚ) < ((pyInt ((7 : ℤ) : ℚ) : ℤ) : ℚ) + 1 :=
  (C10_truncated_persistence.1 eC10 ((7 : ℤ) : ℚ) ((8 : ℤ) : ℚ) ((3 : ℤ) : ℚ)
    (by norm_num)).1
